import Mathlib

/-!
Verification of the finance-tracker bot (`src/bot.py`).

The development shallowly embeds the program:

* the SQLite table `transactions` is a `List Txn` (append-only; `INSERT`
  appends one record);
* `REAL` amounts are embedded as rationals (`ℚ`), the decimal values the
  program manipulates;
* timestamps stored in the `date` column as strings
  `"YYYY-MM-DD HH:MM:SS"` are embedded as a `DateTime` record of the six
  numeric fields.  SQLite compares these TEXT values lexicographically,
  which on zero-padded well-formed timestamps coincides with
  lexicographic comparison of the numeric field tuples; the embedding
  performs the comparison on the tuples (`ymdLe`, `dtLe`).  A comparison
  of a full timestamp string against a `"YYYY-MM-DD"` bound (as in the
  weekly/monthly queries) holds exactly when the date part of the
  timestamp is lexicographically at or above the bound, which is how the
  query filters are embedded;
* Python `datetime` calendar arithmetic (`date.toordinal`, `weekday`,
  `timedelta` day subtraction, `replace(day=1)`) is embedded by the
  proleptic-Gregorian functions `toOrdinal`, `pyWeekday`, `subDays`,
  matching CPython's documented algorithm;
* SQL `GROUP BY`/`SUM` queries are embedded by `groupSums`: one row per
  distinct key of the filtered records, carrying the sum of amounts of
  its group (row order is immaterial to every handler, which only folds
  over the rows);
* exceptions are embedded with `Except`/explicit outcome types; an
  exception that no `except` clause of the handler catches is an `exn`
  outcome.
-/

namespace FinBot

/-- Timestamp as stored in the `date` column (`"%Y-%m-%d %H:%M:%S"`),
embedded as its six numeric fields. -/
structure DateTime where
  year : Nat
  month : Nat
  day : Nat
  hour : Nat
  minute : Nat
  second : Nat
deriving DecidableEq, Repr

/-- Calendar date, the `"%Y-%m-%d"` part of a timestamp: (year, month, day). -/
abbrev Ymd := Nat × Nat × Nat

/-- Date part of a timestamp, as produced by SQLite `date(...)` or
`strftime("%Y-%m-%d")`. -/
def ymdOf (t : DateTime) : Ymd := (t.year, t.month, t.day)

/-- Lexicographic order on `"YYYY-MM-DD"` strings, performed on the
numeric triples (equal for zero-padded well-formed dates). -/
def ymdLe (a b : Ymd) : Bool :=
  decide (a.1 < b.1 ∨ (a.1 = b.1 ∧ (a.2.1 < b.2.1 ∨ (a.2.1 = b.2.1 ∧ a.2.2 ≤ b.2.2))))

/-- Lexicographic order on full `"YYYY-MM-DD HH:MM:SS"` strings, performed
on the numeric 6-tuples. This is the order SQLite's `ORDER BY date` uses. -/
def dtLe (a b : DateTime) : Bool :=
  decide (a.year < b.year ∨ (a.year = b.year ∧
    (a.month < b.month ∨ (a.month = b.month ∧
      (a.day < b.day ∨ (a.day = b.day ∧
        (a.hour < b.hour ∨ (a.hour = b.hour ∧
          (a.minute < b.minute ∨ (a.minute = b.minute ∧
            a.second ≤ b.second))))))))))

/-- Python `calendar.isleap` / the leap rule used by `datetime`. -/
def isLeap (y : Nat) : Bool := (y % 4 == 0 && y % 100 != 0) || y % 400 == 0

/-- Number of days of month `m` of year `y` (Python `calendar.monthrange`). -/
def daysInMonth (y m : Nat) : Nat :=
  if m = 2 then (if isLeap y then 29 else 28)
  else if m = 4 ∨ m = 6 ∨ m = 9 ∨ m = 11 then 30 else 31

/-- Days of year `y` that precede the first of month `m`
(CPython `_days_before_month`). -/
def daysBeforeMonth (y : Nat) : Nat → Nat
  | 0 => 0
  | 1 => 0
  | m + 2 => daysBeforeMonth y (m + 1) + daysInMonth y (m + 1)

/-- Days before January 1st of year `y` in the proleptic Gregorian
calendar (CPython `_days_before_year`). -/
def daysBeforeYear (y : Nat) : Nat :=
  365 * (y - 1) + (y - 1) / 4 - (y - 1) / 100 + (y - 1) / 400

/-- Python `date.toordinal`: day number with `(1,1,1).toordinal() = 1`. -/
def toOrdinal (d : Ymd) : Nat := daysBeforeYear d.1 + daysBeforeMonth d.1 d.2.1 + d.2.2

/-- Python `date.weekday`: 0 = Monday … 6 = Sunday. -/
def pyWeekday (d : Ymd) : Nat := (toOrdinal d - 1) % 7

/-- Well-formed calendar date. -/
def validYmd (d : Ymd) : Prop :=
  1 ≤ d.1 ∧ 1 ≤ d.2.1 ∧ d.2.1 ≤ 12 ∧ 1 ≤ d.2.2 ∧ d.2.2 ≤ daysInMonth d.1 d.2.1

instance (d : Ymd) : Decidable (validYmd d) := by unfold validYmd; infer_instance

/-- Predecessor date (one `timedelta(days=1)` step backwards). -/
def prevDay : Ymd → Ymd
  | (y, m, d) =>
    if 2 ≤ d then (y, m, d - 1)
    else if 2 ≤ m then (y, m - 1, daysInMonth y (m - 1))
    else (y - 1, 12, 31)

/-- Python `date - timedelta(days=k)`. -/
def subDays (d : Ymd) : Nat → Ymd
  | 0 => d
  | k + 1 => prevDay (subDays d k)

/-- Start of the week containing `d`:
`today - timedelta(days=today.weekday())` from `get_weekly_stats`. -/
def weekStart (d : Ymd) : Ymd := subDays d (pyWeekday d)

/-- Start of the month containing `d`:
`datetime.now().replace(day=1)` from `get_monthly_stats`. -/
def monthStart (d : Ymd) : Ymd := (d.1, d.2.1, 1)

/-- One row of the `transactions` table. -/
structure Txn where
  userId : Int
  kind : String
  amount : ℚ
  category : String
  description : String
  date : DateTime
deriving DecidableEq, Repr

/-- The append-only ledger: the rows of the `transactions` table in
insertion (= `id`) order. -/
abbrev Ledger := List Txn

/-- `FinanceTracker.add_transaction`: validation then `INSERT`.  The
`ValueError`s the Python code raises are the `error` cases; on success the
new row is appended with the current timestamp. -/
def add_transaction (L : Ledger) (user_id : Int) (transaction_type : String)
    (amount : ℚ) (category description : String) (now : DateTime) :
    Except String Ledger :=
  if amount ≤ 0 then .error "Сумма должна быть положительной"
  else if 1000000 < amount then .error "Сумма слишком большая"
  else if ¬ (transaction_type = "income" ∨ transaction_type = "expense") then
    .error "Неверный тип транзакции"
  else .ok (L ++ [⟨user_id, transaction_type, amount, category, description, now⟩])

/-- Every record of the ledger was written by a successful
`add_transaction`: positive amount within the limit, recognized kind. -/
def validLedger (L : Ledger) : Prop :=
  ∀ r ∈ L, 0 < r.amount ∧ r.amount ≤ 1000000 ∧ (r.kind = "income" ∨ r.kind = "expense")

instance (L : Ledger) : Decidable (validLedger L) := by
  unfold validLedger
  infer_instance

/-- SQL `SELECT key, SUM(amount) ... GROUP BY key` over a filtered row
list: one row per distinct key, carrying the sum of the amounts of its
group. -/
def groupSums {κ : Type} [DecidableEq κ] (k : Txn → κ) (l : List Txn) : List (κ × ℚ) :=
  ((l.map k).dedup).map
    (fun c => (c, ((l.filter fun r => decide (k r = c)).map (·.amount)).sum))

/-- `FinanceTracker.get_user_balance`: `SELECT type, SUM(amount) ...
GROUP BY type`, then add income sums and subtract every other type's sum. -/
def get_user_balance (L : Ledger) (u : Int) : ℚ :=
  (groupSums (fun r => r.kind) (L.filter fun r => r.userId == u)).foldl
    (fun b p => if p.1 = "income" then b + p.2 else b - p.2) 0

/-- Result shape of the three stats functions: the Python dict
`{"income": {...}, "expense": {...}, "total_income": t, "total_expense": t}`,
with the two category dicts embedded as association lists in insertion
order. -/
structure Stats where
  income : List (String × ℚ)
  expense : List (String × ℚ)
  total_income : ℚ
  total_expense : ℚ
deriving DecidableEq, Repr

/-- Python dict assignment `m[k] = v`: replace in place if the key is
present, else append. -/
def dictSet (m : List (String × ℚ)) (k : String) (v : ℚ) : List (String × ℚ) :=
  if m.any (fun p => p.1 == k) then m.map (fun p => if p.1 == k then (k, v) else p)
  else m ++ [(k, v)]

/-- Loop body of the stats functions: route one `(type, category, sum)`
row into the result dict. -/
def statsStep (st : Stats) (row : (String × String) × ℚ) : Stats :=
  if row.1.1 = "income" then
    { st with income := dictSet st.income row.1.2 row.2,
              total_income := st.total_income + row.2 }
  else
    { st with expense := dictSet st.expense row.1.2 row.2,
              total_expense := st.total_expense + row.2 }

/-- The `for transaction_type, category, amount in results` loop shared by
the three stats functions. -/
def buildStats (rows : List ((String × String) × ℚ)) : Stats :=
  rows.foldl statsStep ⟨[], [], 0, 0⟩

/-- `SELECT type, category, SUM(amount) FROM transactions WHERE user_id = ?
AND <keep> GROUP BY type, category`. -/
def queryAgg (L : Ledger) (u : Int) (keep : Txn → Bool) : List ((String × String) × ℚ) :=
  groupSums (fun r => (r.kind, r.category)) (L.filter fun r => r.userId == u && keep r)

/-- Row filter of `get_daily_stats`: `date(date) = today_str`. -/
def dailyKeep (now : DateTime) (r : Txn) : Bool := decide (ymdOf r.date = ymdOf now)

/-- Row filter of `get_weekly_stats`: `date >= week_start_str` (timestamp
string against the `"%Y-%m-%d"` of the week start, so: date part at or
above the week start). -/
def weeklyKeep (now : DateTime) (r : Txn) : Bool := ymdLe (weekStart (ymdOf now)) (ymdOf r.date)

/-- Row filter of `get_monthly_stats`: `date >= month_start` with
`month_start = now.replace(day=1)`. -/
def monthlyKeep (now : DateTime) (r : Txn) : Bool := ymdLe (monthStart (ymdOf now)) (ymdOf r.date)

/-- `FinanceTracker.get_daily_stats`. -/
def get_daily_stats (L : Ledger) (u : Int) (now : DateTime) : Stats :=
  buildStats (queryAgg L u (dailyKeep now))

/-- `FinanceTracker.get_weekly_stats`. -/
def get_weekly_stats (L : Ledger) (u : Int) (now : DateTime) : Stats :=
  buildStats (queryAgg L u (weeklyKeep now))

/-- `FinanceTracker.get_monthly_stats`. -/
def get_monthly_stats (L : Ledger) (u : Int) (now : DateTime) : Stats :=
  buildStats (queryAgg L u (monthlyKeep now))

/-- Insert a row before the first element whose date is at or below the
row's date (descending insertion). -/
def insertDesc (r : Txn) : List Txn → List Txn
  | [] => [r]
  | x :: xs => if dtLe x.date r.date then r :: x :: xs else x :: insertDesc r xs

/-- `ORDER BY date DESC` on the timestamp strings: most recent first. -/
def sortByDateDesc (l : List Txn) : List Txn := l.foldr insertDesc []

/-- `FinanceTracker.get_user_transactions`: `SELECT ... WHERE user_id = ?
ORDER BY date DESC LIMIT ?`.  SQLite `LIMIT n` returns the first `n` rows
when `n ≥ 0` and all rows when `n` is negative (a negative limit means no
upper bound). -/
def get_user_transactions (L : Ledger) (u : Int) (limit : Int) : List Txn :=
  let rows := sortByDateDesc (L.filter fun r => r.userId == u)
  if 0 ≤ limit then rows.take limit.toNat else rows

/-- Result of Python `float(str)`: a finite value, a signed infinity, or
NaN. -/
inductive PyFloat where
  | fin (q : ℚ)
  | inf (neg : Bool)
  | nan
deriving DecidableEq, Repr

/-- Optional-sign step of Python number parsing. -/
def parseSign : List Char → Bool × List Char
  | '-' :: cs => (true, cs)
  | '+' :: cs => (false, cs)
  | cs => (false, cs)

/-- Numeric value of a digit run. -/
def digitsToNat (ds : List Char) : Nat :=
  ds.foldl (fun n c => 10 * n + (c.toNat - 48)) 0

/-- Greedy digit run with PEP 515 single underscores strictly between
digits, as accepted by Python `float` (`1_5` is fine, `1__5`, `1_`,
`_5`, `1_.5` are not): returns the digits with the underscores removed
and the unconsumed rest. -/
def takeUDigits : List Char → List Char × List Char
  | [] => ([], [])
  | c :: cs =>
    if c.isDigit then
      match cs with
      | '_' :: c2 :: cs2 =>
        if c2.isDigit then
          let r := takeUDigits (c2 :: cs2)
          (c :: r.1, r.2)
        else ([c], '_' :: c2 :: cs2)
      | c2 :: cs2 =>
        if c2.isDigit then
          let r := takeUDigits (c2 :: cs2)
          (c :: r.1, r.2)
        else ([c], c2 :: cs2)
      | [] => ([c], [])
    else ([], c :: cs)

/-- Exponent suffix of a float literal (after the mantissa): empty, or
`e`/`E`, an optional sign, then a digit run (underscores allowed between
digits) with nothing after it. -/
def parseExp (m : ℚ) (cs : List Char) : Option ℚ :=
  match cs with
  | [] => some m
  | e :: cs1 =>
    if e = 'e' ∨ e = 'E' then
      let s2 := parseSign cs1
      let edr := takeUDigits s2.2
      if edr.1 = [] ∨ edr.2 ≠ [] then none
      else
        some (m * (if s2.1 then (10 ^ digitsToNat edr.1 : ℚ)⁻¹
                   else (10 ^ digitsToNat edr.1 : ℚ)))
    else none

/-- Python `float(str)` on ASCII tokens: an optional sign, then one of
the case-insensitive special forms `inf`/`infinity`/`nan`, or a decimal
literal — digit runs with PEP 515 single underscores between digits, an
optional decimal point (at least one digit overall), and an optional
exponent.  Finite literals are kept at their exact rational value; every
literal whose exact value is ≤ 0 also rounds to a non-positive double,
so the handlers' non-positive classification transfers to the program.
(CPython first maps non-ASCII decimal digits to ASCII, so the
amount-entry theorems are scoped to ASCII text.) -/
def parsePyFloat (s : String) : Option PyFloat :=
  let s1 := parseSign s.toList
  let lower := s1.2.map Char.toLower
  if lower = ['i', 'n', 'f'] ∨ lower = ['i', 'n', 'f', 'i', 'n', 'i', 't', 'y'] then
    some (.inf s1.1)
  else if lower = ['n', 'a', 'n'] then some .nan
  else
    let ipr := takeUDigits s1.2
    match ipr.2 with
    | '.' :: cs3 =>
      let fpr := takeUDigits cs3
      if ipr.1 = [] ∧ fpr.1 = [] then none
      else
        (parseExp ((digitsToNat ipr.1 : ℚ)
            + (digitsToNat fpr.1 : ℚ) / 10 ^ fpr.1.length) fpr.2).map
          (fun q => .fin (if s1.1 then -q else q))
    | _ =>
      if ipr.1 = [] then none
      else
        (parseExp (digitsToNat ipr.1 : ℚ) ipr.2).map
          (fun q => .fin (if s1.1 then -q else q))

/-- ASCII whitespace of Python `str.split()` — exactly the characters
below 128 with `isspace()` true: TAB, LF, VT, FF, CR, FS, GS, RS, US,
and the space. -/
def pyIsSpace (c : Char) : Bool :=
  decide ((9 ≤ c.toNat ∧ c.toNat ≤ 13) ∨ (28 ≤ c.toNat ∧ c.toNat ≤ 31)
    ∨ c.toNat = 32)

/-- Python `text.split(maxsplit=1)` on ASCII text: drop leading
whitespace; empty result for whitespace-only text; otherwise the first
whitespace-free token, followed by the remainder after the separating
whitespace run when that remainder is non-empty. -/
def pySplit1 (s : String) : List String :=
  let cs := s.toList.dropWhile pyIsSpace
  if cs = [] then []
  else
    let h := cs.takeWhile (fun c => !pyIsSpace c)
    let rest := (cs.dropWhile (fun c => !pyIsSpace c)).dropWhile pyIsSpace
    if rest = [] then [String.mk h] else [String.mk h, String.mk rest]

/-- Fixed expense category set (`EXPENSE_CATEGORIES`). -/
def EXPENSE_CATEGORIES : List String :=
  ["Кофе", "Заведение", "Одежда", "Косметика", "Транспорт", "Здоровье"]

/-- Per-user conversation state: the dict stored in `user_states`
(`{"state": mode}` or `{"state": mode, "category": c}`). -/
structure UserState where
  mode : String
  category : Option String
deriving DecidableEq, Repr

/-- Outcome of one `handle_message` call: normal return with the next
state, ledger, and the replies sent — or an exception no `except` clause
of the handler catches (state and ledger as they were when it escaped). -/
inductive HMResult where
  | ok (st : UserState) (L : Ledger) (replies : List String)
  | exn (st : UserState) (L : Ledger) (name : String)
deriving DecidableEq, Repr

/-- Description taken from a `split(maxsplit=1)` result:
`parts[1] if len(parts) > 1 else ""`. -/
def descOf : List String → String
  | [] => ""
  | r :: _ => r

/-- Amount-entry branch shared by the `enter_income_amount` and
`enter_expense_amount` states, in the handler's statement order:
`parts[0]` of an empty split raises an uncaught `IndexError`; a failing
`float(parts[0])` raises a `ValueError` the handler catches and reports;
then the expense state reads `user_states[user_id]["category"]` (a
missing key would raise an uncaught `KeyError`; the income state uses
the constant category, passed here as `some "Доход"`); finally
`add_transaction` runs.  A parsed NaN passes all three validation checks
(IEEE comparisons with NaN are false) and the `INSERT` then raises an
uncaught `IntegrityError` — SQLite stores NaN as NULL and the `amount`
column is NOT NULL.  For ±infinity the first or second check fires
inside `add_transaction` (−inf ≤ 0; +inf exceeds the maximum), giving
the corresponding caught `ValueError`; those two branches are written
out here because the rational-typed `add_transaction` embeds only finite
amounts. -/
def amountBranch (st : UserState) (L : Ledger) (u : Int) (text : String)
    (now : DateTime) (kind : String) (categoryOfState : Option String)
    (okNoun exampleText : String) : HMResult :=
  match pySplit1 text with
  | [] => .exn st L "IndexError"
  | h :: rest =>
    match parsePyFloat h with
    | none =>
      .ok st L ["❌ Ошибка: could not convert string to float\n\nПример: " ++ exampleText]
    | some v =>
      match categoryOfState with
      | none => .exn st L "KeyError"
      | some category =>
        match v with
        | .nan => .exn st L "IntegrityError"
        | .inf true =>
          .ok st L ["❌ Ошибка: Сумма должна быть положительной\n\nПример: " ++ exampleText]
        | .inf false =>
          .ok st L ["❌ Ошибка: Сумма слишком большая\n\nПример: " ++ exampleText]
        | .fin amount =>
          match add_transaction L u kind amount category (descOf rest) now with
          | .error e => .ok st L ["❌ Ошибка: " ++ e ++ "\n\nПример: " ++ exampleText]
          | .ok L' => .ok ⟨"main", none⟩ L' ["✅ " ++ okNoun ++ " добавлен!"]

/-- Reply text of the balance button. -/
def balanceReply (b : ℚ) : String :=
  if 0 < b then "💰 Текущий баланс положителен"
  else if b < 0 then "💰 Текущий баланс отрицателен"
  else "💰 Текущий баланс нулевой"

/-- Reply text of the stats period buttons (presence of the reply is what
the claims depend on; the numbers are read off the `Stats` value). -/
def statsReply (st : Stats) (period : String) : String :=
  if st.total_income = 0 ∧ st.total_expense = 0 then
    "📈 Статистика за " ++ period ++ ": нет транзакций"
  else "📈 Статистика за " ++ period

/-- `handle_message`: the per-user conversation state machine, dispatching
on the current `user_states` entry and the message text. -/
def handleMessage (st : UserState) (L : Ledger) (u : Int) (text : String)
    (now : DateTime) : HMResult :=
  if text = "🔙 Назад" then .ok ⟨"main", none⟩ L ["Главное меню:"]
  else if st.mode = "main" then
    if text = "💰 Добавить доход" then
      .ok ⟨"enter_income_amount", none⟩ L ["💰 Введи сумму дохода:"]
    else if text = "💸 Добавить расход" then
      .ok ⟨"select_expense_category", none⟩ L ["Выбери категорию расхода:"]
    else if text = "📊 Баланс" then
      .ok st L [balanceReply (get_user_balance L u)]
    else if text = "📈 Статистика" then
      .ok ⟨"select_stats_period", none⟩ L ["📊 Выбери период для статистики:"]
    else if text = "❓ Помощь" then
      .ok st L ["📖 Как пользоваться ботом"]
    else .ok st L []
  else if st.mode = "select_stats_period" then
    if text = "📅 За день" then
      .ok ⟨"main", none⟩ L [statsReply (get_daily_stats L u now) "день"]
    else if text = "📆 За неделю" then
      .ok ⟨"main", none⟩ L [statsReply (get_weekly_stats L u now) "неделю"]
    else if text = "🗓️ За месяц" then
      .ok ⟨"main", none⟩ L [statsReply (get_monthly_stats L u now) "месяц"]
    else .ok st L []
  else if st.mode = "select_expense_category" then
    if text ∈ EXPENSE_CATEGORIES then
      .ok ⟨"enter_expense_amount", some text⟩ L ["💸 Категория: " ++ text ++ "\n\nВведи сумму расхода:"]
    else .ok st L []
  else if st.mode = "enter_income_amount" then
    amountBranch st L u text now "income" (some "Доход") "Доход" "1500 или 1500 описание"
  else if st.mode = "enter_expense_amount" then
    amountBranch st L u text now "expense" st.category "Расход" "500 или 500 обед"
  else .ok st L []

/-- One element of a Web App `transactions` batch (a single-transaction
shape with all fields read). -/
structure TxnInput where
  kind : String
  amount : ℚ
  category : String
  description : String
deriving DecidableEq, Repr

/-- Record a successful insert of one batch element would append. -/
def mkRec (u : Int) (now : DateTime) (t : TxnInput) : Txn :=
  ⟨u, t.kind, t.amount, t.category, t.description, now⟩

/-- Batch element that `add_transaction` accepts. -/
def validInput (t : TxnInput) : Prop :=
  0 < t.amount ∧ t.amount ≤ 1000000 ∧ (t.kind = "income" ∨ t.kind = "expense")

instance (t : TxnInput) : Decidable (validInput t) := by unfold validInput; infer_instance

/-- The `for transaction in transactions` loop of `handle_webapp_data`:
insert each element in order; the first `ValueError` escapes the loop with
the ledger as already committed. -/
def runBatch (L : Ledger) (u : Int) (now : DateTime) :
    List TxnInput → Ledger × Option String
  | [] => (L, none)
  | t :: ts =>
    match add_transaction L u t.kind t.amount t.category t.description now with
    | .ok L' => runBatch L' u now ts
    | .error e => (L, some e)

/-- Generic reply of the `except Exception` handler wrapping
`handle_webapp_data`. -/
def webappErrorReply : String := "❌ Ошибка при обработке данных приложения"

/-- Batch path of `handle_webapp_data` (payloads with a `transactions`
key): run the loop; on success reply with the sync summary, on any
exception the outer handler replies with the one generic error message. -/
def handleWebappBatch (L : Ledger) (u : Int) (now : DateTime)
    (ts : List TxnInput) : Ledger × String :=
  match runBatch L u now ts with
  | (L', none) => (L', "✅ Синхронизация завершена! Добавлено транзакций: " ++ toString ts.length)
  | (L', some _) => (L', webappErrorReply)

/-- Spec-side sum: total of the user's Income amounts over all time. -/
def incomeTotal (L : Ledger) (u : Int) : ℚ :=
  (((L.filter fun r => r.userId == u).filter fun r => decide (r.kind = "income")).map
    (·.amount)).sum

/-- Spec-side sum: total of the user's Expense amounts over all time. -/
def expenseTotal (L : Ledger) (u : Int) : ℚ :=
  (((L.filter fun r => r.userId == u).filter fun r => decide (r.kind = "expense")).map
    (·.amount)).sum

/-- Spec-side sum: the user's Income amounts among records the window
filter keeps. -/
def wIncomeSum (L : Ledger) (u : Int) (keep : Txn → Bool) : ℚ :=
  (((L.filter fun r => r.userId == u && keep r).filter fun r =>
      decide (r.kind = "income")).map (·.amount)).sum

/-- Spec-side sum: the user's Expense amounts among records the window
filter keeps. -/
def wExpenseSum (L : Ledger) (u : Int) (keep : Txn → Bool) : ℚ :=
  (((L.filter fun r => r.userId == u && keep r).filter fun r =>
      decide (r.kind = "expense")).map (·.amount)).sum

/-- Concrete timestamp used by the witness instances. -/
def now0 : DateTime := ⟨2024, 10, 9, 12, 0, 0⟩

/-- Concrete income record used by the witness instances. -/
def r0 : Txn := ⟨1, "income", 5, "Доход", "", ⟨2024, 1, 1, 10, 0, 0⟩⟩

/-- Concrete expense record used by the witness instances. -/
def rExp : Txn := ⟨1, "expense", 3, "Кофе", "", ⟨2024, 1, 2, 11, 0, 0⟩⟩

/-- Valid batch element used by the concrete batch runs. -/
def vIn1 : TxnInput := ⟨"income", 100, "Зарплата", ""⟩

/-- Valid batch element used by the concrete batch runs. -/
def vIn2 : TxnInput := ⟨"expense", 50, "Кофе", ""⟩

/-- Valid batch element used by the concrete batch runs. -/
def vIn3 : TxnInput := ⟨"income", 20, "Доход", ""⟩

/-- Invalid batch element (amount 0) used by the concrete batch runs. -/
def badIn : TxnInput := ⟨"income", 0, "Доход", ""⟩

/-- Success test on the result of an insert. -/
def isOkE (e : Except String Ledger) : Bool :=
  match e with
  | .ok _ => true
  | .error _ => false

/-- Most-recent-first: each element's date is at or above every later
element's date. -/
def sortedDesc (l : List Txn) : Prop :=
  l.Pairwise (fun x y => dtLe y.date x.date = true)

/-! ### Basic facts about `add_transaction` -/

theorem add_ok_elim {L : Ledger} {u : Int} {k : String} {a : ℚ} {c ds : String}
    {t : DateTime} {L' : Ledger} (h : add_transaction L u k a c ds t = .ok L') :
    L' = L ++ [⟨u, k, a, c, ds, t⟩] := by
  unfold add_transaction at h
  split_ifs at h
  simp_all

theorem add_ok_of_cond {L : Ledger} {u : Int} {k : String} {a : ℚ} {c ds : String}
    {t : DateTime} (h1 : 0 < a) (h2 : a ≤ 1000000)
    (h3 : k = "income" ∨ k = "expense") :
    add_transaction L u k a c ds t = .ok (L ++ [⟨u, k, a, c, ds, t⟩]) := by
  unfold add_transaction
  rw [if_neg (by linarith), if_neg (by linarith), if_neg (not_not.mpr h3)]

theorem add_err_of_not_cond {L : Ledger} {u : Int} {k : String} {a : ℚ} {c ds : String}
    {t : DateTime} (h : ¬(0 < a ∧ a ≤ 1000000 ∧ (k = "income" ∨ k = "expense"))) :
    ∃ e, add_transaction L u k a c ds t = .error e := by
  unfold add_transaction
  by_cases h1 : a ≤ 0
  · rw [if_pos h1]; exact ⟨_, rfl⟩
  · rw [if_neg h1]
    by_cases h2 : 1000000 < a
    · rw [if_pos h2]; exact ⟨_, rfl⟩
    · rw [if_neg h2]
      rw [if_pos]
      · exact ⟨_, rfl⟩
      · intro hk
        exact h ⟨by linarith, by linarith, hk⟩

/-- C2: Insert (`add_transaction`) fails with a `ValidationError` exactly
when the amount is ≤ 0, the amount exceeds the configured maximum
(1000000), or the kind is neither `income` nor `expense`; on success
exactly the one validated record is appended (so on failure nothing is
written); amounts 0 and −5 are rejected, 1000001 is rejected, and
1000000 is accepted. -/
theorem c2_add_transaction_validation :
    (∀ (L : Ledger) (u : Int) (k : String) (a : ℚ) (c ds : String) (t : DateTime),
      isOkE (add_transaction L u k a c ds t) = true
        ↔ (0 < a ∧ a ≤ 1000000 ∧ (k = "income" ∨ k = "expense")))
  ∧ (∀ (L : Ledger) (u : Int) (k : String) (a : ℚ) (c ds : String) (t : DateTime)
      (L' : Ledger), add_transaction L u k a c ds t = .ok L' →
        L' = L ++ [⟨u, k, a, c, ds, t⟩])
  ∧ (∀ (L : Ledger) (u : Int) (c ds : String) (t : DateTime),
        isOkE (add_transaction L u "income" 0 c ds t) = false
        ∧ isOkE (add_transaction L u "income" (-5) c ds t) = false
        ∧ isOkE (add_transaction L u "income" 1000001 c ds t) = false
        ∧ isOkE (add_transaction L u "income" 1000000 c ds t) = true) := by
  refine ⟨?_, fun _ _ _ _ _ _ _ _ h => add_ok_elim h, ?_⟩
  · intro L u k a c ds t
    constructor
    · intro h
      by_contra hc
      obtain ⟨e, he⟩ := add_err_of_not_cond hc
      rw [he] at h
      simp [isOkE] at h
    · rintro ⟨h1, h2, h3⟩
      rw [add_ok_of_cond h1 h2 h3]
      rfl
  · intro L u c ds t
    refine ⟨?_, ?_, ?_, ?_⟩
    · rw [show add_transaction L u "income" 0 c ds t = .error "Сумма должна быть положительной" from if_pos le_rfl]; rfl
    · rw [show add_transaction L u "income" (-5) c ds t = .error "Сумма должна быть положительной" from if_pos (by norm_num)]; rfl
    · obtain ⟨e, he⟩ := @add_err_of_not_cond L u "income" 1000001 c ds t
        (by intro h; linarith [h.2.1])
      rw [he]; rfl
    · rw [add_ok_of_cond (by norm_num) (by norm_num) (Or.inl rfl)]; rfl

/-! ### Frame lemmas for inserts of another user -/

theorem filter_append_false {L : Ledger} {r : Txn} (q : Txn → Bool)
    (h : q r = false) : (L ++ [r]).filter q = L.filter q := by
  simp [List.filter_append, h]

/-- C9: inserting a transaction for user A leaves every query result for a
different user B unchanged: balance, daily/weekly/monthly statistics, and
the recent-transaction list. -/
theorem c9_user_isolation :
    ∀ (L : Ledger) (A B : Int) (k : String) (a : ℚ) (c ds : String) (t : DateTime)
      (L' : Ledger), A ≠ B → add_transaction L A k a c ds t = .ok L' →
      get_user_balance L' B = get_user_balance L B
      ∧ (∀ q, get_daily_stats L' B q = get_daily_stats L B q)
      ∧ (∀ q, get_weekly_stats L' B q = get_weekly_stats L B q)
      ∧ (∀ q, get_monthly_stats L' B q = get_monthly_stats L B q)
      ∧ (∀ lim, get_user_transactions L' B lim = get_user_transactions L B lim) := by
  intro L A B k a c ds t L' hAB hadd
  obtain rfl := add_ok_elim hadd
  set r : Txn := ⟨A, k, a, c, ds, t⟩ with hr
  have hru : r.userId = A := rfl
  have hbeq : (r.userId == B) = false := by
    rw [hru]; exact beq_eq_false_iff_ne.mpr hAB
  have key0 : (L ++ [r]).filter (fun x => x.userId == B)
      = L.filter (fun x => x.userId == B) :=
    filter_append_false _ hbeq
  have key : ∀ p : Txn → Bool,
      (L ++ [r]).filter (fun x => x.userId == B && p x)
        = L.filter (fun x => x.userId == B && p x) := by
    intro p
    exact filter_append_false _ (by rw [hbeq]; rfl)
  refine ⟨?_, ?_, ?_, ?_, ?_⟩
  · unfold get_user_balance
    rw [key0]
  · intro q; unfold get_daily_stats queryAgg; rw [key]
  · intro q; unfold get_weekly_stats queryAgg; rw [key]
  · intro q; unfold get_monthly_stats queryAgg; rw [key]
  · intro lim; unfold get_user_transactions; rw [key0]

/-- C9 witness at a concrete insert for user 2 next to user 1's ledger. -/
theorem c9_user_isolation_witness :
    get_user_balance (r0 :: [⟨2, "income", 7, "Доход", "", now0⟩]) 1
      = get_user_balance [r0] 1 := by
  have h := c9_user_isolation [r0] 2 1 "income" 7 "Доход" "" now0
    ([r0] ++ [⟨2, "income", 7, "Доход", "", now0⟩]) (by decide)
    (add_ok_of_cond (by norm_num) (by norm_num) (Or.inl rfl))
  simpa using h.1

/-! ### The Idle state ignores unrecognized text (C10) -/

/-- C10: in the main (Idle) state, any text that is not one of the
recognized menu tokens is silently ignored: same state, same ledger, no
reply. -/
theorem c10_idle_unrecognized_ignored :
    ∀ (st : UserState) (L : Ledger) (u : Int) (text : String) (t : DateTime),
      st.mode = "main" →
      text ∉ ["🚀 Открыть приложение", "📊 Баланс", "📈 Статистика",
              "💰 Добавить доход", "💸 Добавить расход", "❓ Помощь", "🔙 Назад"] →
      handleMessage st L u text t = .ok st L [] := by
  intro st L u text t hmode hmem
  simp only [List.mem_cons, List.not_mem_nil, or_false, not_or] at hmem
  obtain ⟨h1, h2, h3, h4, h5, h6, h7⟩ := hmem
  simp [handleMessage, hmode, h1, h2, h3, h4, h5, h6, h7]

/-- C10 witness: the text `"привет"` is ignored in the main state. -/
theorem c10_idle_unrecognized_ignored_witness :
    handleMessage ⟨"main", none⟩ [] 1 "привет" now0 = .ok ⟨"main", none⟩ [] [] :=
  c10_idle_unrecognized_ignored ⟨"main", none⟩ [] 1 "привет" now0 rfl (by decide)

/-! ### The expense flow of the state machine (C8) -/

/-- C8: from the main state, the add-expense command moves to
`select_expense_category` without a ledger write; there, a token outside
the fixed category set (other than the back token) changes nothing and
sends no reply, while a category token moves to `enter_expense_amount`
with exactly that token as the pending category. -/
theorem c8_expense_category_flow :
    ∀ (st : UserState) (L : Ledger) (u : Int) (t : DateTime) (tok : String),
      (st.mode = "main" →
        handleMessage st L u "💸 Добавить расход" t
          = .ok ⟨"select_expense_category", none⟩ L ["Выбери категорию расхода:"])
      ∧ (st.mode = "select_expense_category" → tok ∉ EXPENSE_CATEGORIES →
          tok ≠ "🔙 Назад" → handleMessage st L u tok t = .ok st L [])
      ∧ (st.mode = "select_expense_category" → tok ∈ EXPENSE_CATEGORIES →
          handleMessage st L u tok t
            = .ok ⟨"enter_expense_amount", some tok⟩ L
                ["💸 Категория: " ++ tok ++ "\n\nВведи сумму расхода:"]) := by
  intro st L u t tok
  refine ⟨?_, ?_, ?_⟩
  · intro hmode
    simp [handleMessage, hmode]
  · intro hmode hmem hback
    simp [handleMessage, hmode, hmem, hback]
  · intro hmode hmem
    have hback : tok ≠ "🔙 Назад" := by
      rintro rfl
      exact absurd hmem (by decide)
    simp [handleMessage, hmode, hmem, hback]

/-- C8 witness: the concrete walk Idle → category menu → category
`"Кофе"` chosen. -/
theorem c8_expense_category_flow_witness :
    handleMessage ⟨"main", none⟩ [] 1 "💸 Добавить расход" now0
      = .ok ⟨"select_expense_category", none⟩ [] ["Выбери категорию расхода:"]
    ∧ handleMessage ⟨"select_expense_category", none⟩ [] 1 "Кофе" now0
      = .ok ⟨"enter_expense_amount", some "Кофе"⟩ []
          ["💸 Категория: " ++ "Кофе" ++ "\n\nВведи сумму расхода:"] :=
  ⟨(c8_expense_category_flow ⟨"main", none⟩ [] 1 now0 "Кофе").1 rfl,
   (c8_expense_category_flow ⟨"select_expense_category", none⟩ [] 1 now0 "Кофе").2.2
     rfl (by decide)⟩

/-! ### Error handling in the amount-entry states (C6) -/

theorem amountBranch_of_empty_split {st : UserState} {L : Ledger} {u : Int}
    {text : String} {t : DateTime} (k : String) (cOpt : Option String)
    (n ex : String) (hsplit : pySplit1 text = []) :
    amountBranch st L u text t k cOpt n ex = .exn st L "IndexError" := by
  unfold amountBranch
  rw [hsplit]

theorem amountBranch_of_nan {st : UserState} {L : Ledger} {u : Int}
    {text : String} {t : DateTime} (k c n ex : String) {h : String}
    {rest : List String} (hsplit : pySplit1 text = h :: rest)
    (hnan : parsePyFloat h = some PyFloat.nan) :
    amountBranch st L u text t k (some c) n ex = .exn st L "IntegrityError" := by
  simp only [amountBranch, hsplit, hnan]

theorem amountBranch_of_bad_amount {st : UserState} {L : Ledger} {u : Int}
    {text : String} {t : DateTime} (k c n ex : String) {h : String}
    {rest : List String} (hsplit : pySplit1 text = h :: rest)
    (hbad : parsePyFloat h = none ∨ parsePyFloat h = some (PyFloat.inf true)
      ∨ ∃ a, parsePyFloat h = some (PyFloat.fin a) ∧ a ≤ 0) :
    ∃ msg, amountBranch st L u text t k (some c) n ex = .ok st L [msg] := by
  rcases hbad with hnone | hninf | ⟨a, ha, hle⟩
  · refine ⟨"❌ Ошибка: could not convert string to float\n\nПример: " ++ ex, ?_⟩
    simp only [amountBranch, hsplit, hnone]
  · refine ⟨"❌ Ошибка: Сумма должна быть положительной\n\nПример: " ++ ex, ?_⟩
    simp only [amountBranch, hsplit, hninf]
  · have hadd : add_transaction L u k a c (descOf rest) t
        = .error "Сумма должна быть положительной" := if_pos hle
    refine ⟨"❌ Ошибка: " ++ "Сумма должна быть положительной" ++ "\n\nПример: " ++ ex, ?_⟩
    simp only [amountBranch, hsplit, ha, hadd]

/-- C6 counterexample: in the income-amount state, whitespace-only text
raises an uncaught `IndexError` (from `parts[0]` on an empty split): no
validation error is reported to the user, contrary to the claim's
"including whitespace-only or empty text" (state and ledger are still
unchanged). -/
theorem c6_counterexample :
    handleMessage ⟨"enter_income_amount", none⟩ [] 1 " " now0
      = .exn ⟨"enter_income_amount", none⟩ [] "IndexError" := by
  decide

/-- C6 (amended): in the amount-entry states, for every ASCII input text
other than the back token: an empty whitespace-split (empty or
whitespace-only text) raises an uncaught `IndexError` with no reply,
leaving state and ledger unchanged; a head parsing to NaN (`"nan"`)
passes validation and the `INSERT` raises an uncaught `IntegrityError`
(SQLite stores NaN as NULL in the NOT NULL amount column), again with no
reply and state and ledger unchanged; any other text whose numeric head
fails to parse, or parses to a non-positive value (`−inf` included),
gets exactly one validation-error reply, also leaving state and ledger
unchanged, so retry is available. -/
theorem c6_amount_entry_errors :
    ∀ (st : UserState) (L : Ledger) (u : Int) (text : String) (t : DateTime),
      (∀ ch ∈ text.toList, ch.toNat ≤ 127) →
      text ≠ "🔙 Назад" →
      (st.mode = "enter_income_amount" ∨
        (st.mode = "enter_expense_amount" ∧ ∃ c, st.category = some c)) →
      (pySplit1 text = [] → handleMessage st L u text t = .exn st L "IndexError")
      ∧ (∀ h rest, pySplit1 text = h :: rest → parsePyFloat h = some PyFloat.nan →
          handleMessage st L u text t = .exn st L "IntegrityError")
      ∧ (∀ h rest, pySplit1 text = h :: rest →
          (parsePyFloat h = none ∨ parsePyFloat h = some (PyFloat.inf true)
            ∨ ∃ a, parsePyFloat h = some (PyFloat.fin a) ∧ a ≤ 0) →
          ∃ msg, handleMessage st L u text t = .ok st L [msg]) := by
  intro st L u text t _ hback hmode
  rcases hmode with hmode | ⟨hmode, c, hc⟩
  · have hred : handleMessage st L u text t
        = amountBranch st L u text t "income" (some "Доход") "Доход"
            "1500 или 1500 описание" := by
      simp [handleMessage, hback, hmode]
    rw [hred]
    exact ⟨fun hs => amountBranch_of_empty_split _ _ _ _ hs,
      fun h rest hs hn => amountBranch_of_nan _ _ _ _ hs hn,
      fun h rest hs hbad => amountBranch_of_bad_amount _ _ _ _ hs hbad⟩
  · have hred : handleMessage st L u text t
        = amountBranch st L u text t "expense" (some c) "Расход"
            "500 или 500 обед" := by
      simp [handleMessage, hback, hmode, hc]
    rw [hred]
    exact ⟨fun hs => amountBranch_of_empty_split _ _ _ _ hs,
      fun h rest hs hn => amountBranch_of_nan _ _ _ _ hs hn,
      fun h rest hs hbad => amountBranch_of_bad_amount _ _ _ _ hs hbad⟩

/-- C6 witness: in the income-amount state, unparseable `"abc"` and
non-positive `"-5"` each get one error reply with state and ledger
unchanged, and `"nan"` hits the uncaught `IntegrityError` with no
reply. -/
theorem c6_amount_entry_errors_witness :
    (∃ msg, handleMessage ⟨"enter_income_amount", none⟩ [] 1 "abc" now0
      = .ok ⟨"enter_income_amount", none⟩ [] [msg])
    ∧ (∃ msg, handleMessage ⟨"enter_income_amount", none⟩ [] 1 "-5" now0
      = .ok ⟨"enter_income_amount", none⟩ [] [msg])
    ∧ handleMessage ⟨"enter_income_amount", none⟩ [] 1 "nan" now0
      = .exn ⟨"enter_income_amount", none⟩ [] "IntegrityError" :=
  ⟨(c6_amount_entry_errors ⟨"enter_income_amount", none⟩ [] 1 "abc" now0
      (by decide) (by decide) (Or.inl rfl)).2.2 "abc" [] (by decide)
      (Or.inl (by decide)),
   (c6_amount_entry_errors ⟨"enter_income_amount", none⟩ [] 1 "-5" now0
      (by decide) (by decide) (Or.inl rfl)).2.2 "-5" [] (by decide)
      (Or.inr (Or.inr ⟨-5, by decide, by norm_num⟩)),
   (c6_amount_entry_errors ⟨"enter_income_amount", none⟩ [] 1 "nan" now0
      (by decide) (by decide) (Or.inl rfl)).2.1 "nan" [] (by decide) (by decide)⟩

/-! ### Ordering lemmas for `get_user_transactions` (C7) -/

theorem dtLe_total (a b : DateTime) : dtLe a b = true ∨ dtLe b a = true := by
  simp only [dtLe, decide_eq_true_eq]
  omega

theorem dtLe_trans {a b c : DateTime} (h1 : dtLe a b = true) (h2 : dtLe b c = true) :
    dtLe a c = true := by
  simp only [dtLe, decide_eq_true_eq] at *
  omega

theorem insertDesc_perm (r : Txn) (l : List Txn) : (insertDesc r l).Perm (r :: l) := by
  induction l with
  | nil => exact List.Perm.refl _
  | cons x xs ih =>
    unfold insertDesc
    split
    · exact List.Perm.refl _
    · exact (ih.cons x).trans (List.Perm.swap r x xs)

theorem insertDesc_sorted (r : Txn) {l : List Txn} (h : sortedDesc l) :
    sortedDesc (insertDesc r l) := by
  induction l with
  | nil => simp [insertDesc, sortedDesc]
  | cons x xs ih =>
    rw [sortedDesc, List.pairwise_cons] at h
    unfold insertDesc
    split
    · rename_i hxr
      rw [sortedDesc, List.pairwise_cons]
      refine ⟨?_, List.pairwise_cons.mpr h⟩
      intro y hy
      rcases List.mem_cons.mp hy with rfl | hy
      · exact hxr
      · exact dtLe_trans (h.1 y hy) hxr
    · rename_i hxr
      have hrx : dtLe r.date x.date = true := by
        rcases dtLe_total x.date r.date with h' | h'
        · exact absurd h' hxr
        · exact h'
      rw [sortedDesc, List.pairwise_cons]
      refine ⟨?_, ih h.2⟩
      intro y hy
      rcases List.mem_cons.mp ((insertDesc_perm r xs).mem_iff.mp hy) with rfl | hy
      · exact hrx
      · exact h.1 y hy

theorem sortByDateDesc_perm (l : List Txn) : (sortByDateDesc l).Perm l := by
  induction l with
  | nil => exact List.Perm.refl _
  | cons x xs ih =>
    exact (insertDesc_perm x (sortByDateDesc xs)).trans (ih.cons x)

theorem sortByDateDesc_sorted (l : List Txn) : sortedDesc (sortByDateDesc l) := by
  induction l with
  | nil => simp [sortByDateDesc, sortedDesc]
  | cons x xs ih => exact insertDesc_sorted x ih

/-- C7 counterexample: with a negative limit SQLite's `LIMIT` means "no
upper bound", so `get_user_transactions` returns the user's records
instead of the empty sequence the claim promises for every limit ≤ 0. -/
theorem c7_counterexample :
    (-1 : Int) ≤ 0 ∧ get_user_transactions [r0] 1 (-1) ≠ [] := by
  refine ⟨by norm_num, ?_⟩
  decide

/-- C7 (amended): `get_user_transactions` returns the user's records most
recent first; for limit ≥ 0 it truncates to at most limit entries (so
limit 0 yields the empty sequence, not an error), while a negative limit
yields all of the user's records (SQLite treats a negative `LIMIT` as
unlimited). -/
theorem c7_recent_transactions :
    ∀ (L : Ledger) (u : Int) (limit : Int),
      (∀ r ∈ get_user_transactions L u limit, r.userId = u)
      ∧ sortedDesc (get_user_transactions L u limit)
      ∧ (0 ≤ limit → (get_user_transactions L u limit).length ≤ limit.toNat)
      ∧ (limit = 0 → get_user_transactions L u limit = [])
      ∧ (limit < 0 → (get_user_transactions L u limit).Perm
            (L.filter fun r => r.userId == u)) := by
  intro L u limit
  have hmem : ∀ r ∈ get_user_transactions L u limit, r.userId = u := by
    intro r hr
    have hrows : r ∈ sortByDateDesc (L.filter fun x => x.userId == u) := by
      unfold get_user_transactions at hr
      split at hr
      · exact List.take_subset _ _ hr
      · exact hr
    have := (sortByDateDesc_perm _).mem_iff.mp hrows
    have := (List.mem_filter.mp this).2
    exact beq_iff_eq.mp this
  refine ⟨hmem, ?_, ?_, ?_, ?_⟩
  · unfold get_user_transactions
    split
    · exact (sortByDateDesc_sorted _).sublist (List.take_sublist _ _)
    · exact sortByDateDesc_sorted _
  · intro hl
    unfold get_user_transactions
    rw [if_pos hl]
    exact List.length_take_le _ _
  · rintro rfl
    unfold get_user_transactions
    rw [if_pos le_rfl]
    simp
  · intro hl
    unfold get_user_transactions
    rw [if_neg (by omega)]
    exact sortByDateDesc_perm _

/-- C7 witness: limit 0 on a one-record ledger yields the empty list. -/
theorem c7_recent_transactions_witness : get_user_transactions [r0] 1 0 = [] :=
  (c7_recent_transactions [r0] 1 0).2.2.2.1 rfl

/-! ### Batch fail-fast of `handle_webapp_data` (C3) -/

theorem runBatch_failfast {u : Int} {now : DateTime} {t : TxnInput}
    (post : List TxnInput) (hbad : ¬ validInput t) :
    ∀ (pre : List TxnInput) (L : Ledger), (∀ x ∈ pre, validInput x) →
      ∃ e, runBatch L u now (pre ++ t :: post) = (L ++ pre.map (mkRec u now), some e) := by
  intro pre
  induction pre with
  | nil =>
    intro L _
    obtain ⟨e, he⟩ := @add_err_of_not_cond L u t.kind t.amount t.category
      t.description now (by simpa [validInput] using hbad)
    refine ⟨e, ?_⟩
    simp only [List.nil_append, runBatch, he, List.map_nil, List.append_nil]
  | cons x pre ih =>
    intro L hval
    have hx := hval x (List.mem_cons_self x pre)
    have hok : add_transaction L u x.kind x.amount x.category x.description now
        = .ok (L ++ [mkRec u now x]) := add_ok_of_cond hx.1 hx.2.1 hx.2.2
    obtain ⟨e, he⟩ := ih (L ++ [mkRec u now x]) (fun y hy => hval y (List.mem_cons_of_mem x hy))
    refine ⟨e, ?_⟩
    simp only [List.cons_append, runBatch, hok]
    exact he.trans (by simp [List.append_assoc])

/-- C3 counterexample: a batch of 3 valid elements then 1 invalid one
commits exactly 3 records, but the caller's response is the one generic
error string — identical to the response for a batch failing at index 0
with 0 records committed — so the response reports neither the failing
index nor the commit count. -/
theorem c3_counterexample :
    (handleWebappBatch [] 7 now0 [vIn1, vIn2, vIn3, badIn]).1.length = 3
    ∧ (handleWebappBatch [] 7 now0 [vIn1, vIn2, vIn3, badIn]).2
        = (handleWebappBatch [] 7 now0 [badIn]).2
    ∧ (handleWebappBatch [] 7 now0 [badIn]).1.length = 0 := by
  decide

/-- C3 (amended): batch elements are validated and inserted in input
order; at the first invalid element all prior elements stay committed and
nothing at or after it is inserted, and the caller receives the fixed
generic error reply, which identifies neither the failing element, nor
the reason, nor the commit count. -/
theorem c3_batch_failfast :
    ∀ (L : Ledger) (u : Int) (now : DateTime) (pre : List TxnInput)
      (t : TxnInput) (post : List TxnInput),
      (∀ x ∈ pre, validInput x) → ¬ validInput t →
      handleWebappBatch L u now (pre ++ t :: post)
        = (L ++ pre.map (mkRec u now), webappErrorReply) := by
  intro L u now pre t post hval hbad
  obtain ⟨e, he⟩ := runBatch_failfast post hbad pre L hval
  unfold handleWebappBatch
  rw [he]

/-- C3 witness: one valid element followed by an invalid one commits
exactly the valid element and replies with the generic error. -/
theorem c3_batch_failfast_witness :
    handleWebappBatch [] 7 now0 [vIn1, badIn]
      = ([] ++ [vIn1].map (mkRec 7 now0), webappErrorReply) :=
  c3_batch_failfast [] 7 now0 [vIn1] badIn [] (by decide) (by decide)

/-! ### Summation over SQL groups -/

theorem sum_filter_not {α : Type} (v : α → ℚ) (p : α → Bool) (l : List α) :
    ((l.filter p).map v).sum + ((l.filter fun x => !p x).map v).sum = (l.map v).sum := by
  induction l with
  | nil => simp
  | cons x xs ih =>
    cases hp : p x <;> simp [List.filter_cons, hp] <;> linarith [ih]

theorem filter_of_map {α β : Type} (f : α → β) (p : β → Bool) (l : List α) :
    (l.map f).filter p = (l.filter fun x => p (f x)).map f := by
  induction l with
  | nil => rfl
  | cons x xs ih => cases hp : p (f x) <;> simp [List.filter_cons, hp, ih]

theorem sum_groups {α κ : Type} [DecidableEq κ] (k : α → κ) (v : α → ℚ) :
    ∀ (cs : List κ) (l : List α), cs.Nodup → (∀ x ∈ l, k x ∈ cs) →
      (cs.map fun c => ((l.filter fun x => decide (k x = c)).map v).sum).sum
        = (l.map v).sum := by
  intro cs
  induction cs with
  | nil =>
    intro l _ hmem
    have hl : l = [] := by
      cases l with
      | nil => rfl
      | cons x xs => exact absurd (hmem x (List.mem_cons_self x xs)) (List.not_mem_nil _)
    subst hl
    simp
  | cons c cs ih =>
    intro l hnd hmem
    have hnd' : cs.Nodup := (List.nodup_cons.mp hnd).2
    have hc : c ∉ cs := (List.nodup_cons.mp hnd).1
    have hmem2 : ∀ x ∈ l.filter fun x => !decide (k x = c), k x ∈ cs := by
      intro x hx
      have hx' := List.mem_filter.mp hx
      rcases List.mem_cons.mp (hmem x hx'.1) with h | h
      · exfalso
        rw [h] at hx'
        simp at hx'
      · exact h
    have hcongr : ∀ c' ∈ cs,
        ((l.filter fun x => decide (k x = c')).map v).sum
          = (((l.filter fun x => !decide (k x = c)).filter
              fun x => decide (k x = c')).map v).sum := by
      intro c' hc'
      have hfe : l.filter (fun x => decide (k x = c'))
          = (l.filter fun x => !decide (k x = c)).filter fun x => decide (k x = c') := by
        rw [List.filter_filter]
        apply List.filter_congr
        intro x _
        cases hkx : decide (k x = c') with
        | false => simp
        | true =>
          have hx : k x = c' := of_decide_eq_true hkx
          have hne : ¬ (k x = c) := by
            intro h
            exact hc (h ▸ hx ▸ hc')
          simp [hne]
      rw [hfe]
    rw [List.map_cons, List.sum_cons, List.map_congr_left hcongr,
      ih (l.filter fun x => !decide (k x = c)) hnd' hmem2]
    have hsplit := sum_filter_not v (fun x => decide (k x = c)) l
    linarith [hsplit]

theorem groupSums_fst {κ : Type} [DecidableEq κ] (k : Txn → κ) (l : List Txn) :
    (groupSums k l).map (·.1) = (l.map k).dedup := by
  unfold groupSums
  rw [List.map_map]
  exact List.map_id _

theorem groupSums_mem {κ : Type} [DecidableEq κ] {k : Txn → κ} {l : List Txn}
    {row : κ × ℚ} (h : row ∈ groupSums k l) :
    (∃ x ∈ l, k x = row.1)
    ∧ row.2 = ((l.filter fun y => decide (k y = row.1)).map (·.amount)).sum := by
  unfold groupSums at h
  obtain ⟨c, hc, rfl⟩ := List.mem_map.mp h
  obtain ⟨x, hx, hkx⟩ := List.mem_map.mp (List.mem_dedup.mp hc)
  exact ⟨⟨x, hx, hkx⟩, rfl⟩

theorem groupSums_filter_sum {κ : Type} [DecidableEq κ] (k : Txn → κ) (l : List Txn)
    (p : κ → Bool) :
    (((groupSums k l).filter fun row => p row.1).map (·.2)).sum
      = ((l.filter fun x => p (k x)).map (·.amount)).sum := by
  have h1 : ((groupSums k l).filter fun row => p row.1).map (·.2)
      = (((l.map k).dedup).filter p).map
          (fun c => ((l.filter fun x => decide (k x = c)).map (·.amount)).sum) := by
    unfold groupSums
    rw [filter_of_map, List.map_map]
    rfl
  rw [h1]
  have hgr : ∀ c ∈ ((l.map k).dedup).filter p,
      ((l.filter fun x => decide (k x = c)).map (·.amount)).sum
        = (((l.filter fun x => p (k x)).filter fun x => decide (k x = c)).map
            (·.amount)).sum := by
    intro c hcmem
    have hpc : p c = true := (List.mem_filter.mp hcmem).2
    have hfe : l.filter (fun x => decide (k x = c))
        = (l.filter fun x => p (k x)).filter fun x => decide (k x = c) := by
      rw [List.filter_filter]
      apply List.filter_congr
      intro x _
      cases hkx : decide (k x = c) with
      | false => simp
      | true =>
        have hx : k x = c := of_decide_eq_true hkx
        simp [hx, hpc]
    rw [hfe]
  rw [List.map_congr_left hgr]
  apply sum_groups
  · exact (List.nodup_dedup _).filter p
  · intro x hx
    have hx' := List.mem_filter.mp hx
    exact List.mem_filter.mpr ⟨List.mem_dedup.mpr (List.mem_map_of_mem k hx'.1), hx'.2⟩

/-! ### Balance (C1) -/

theorem balance_foldl :
    ∀ (rows : List (String × ℚ)) (b : ℚ),
      rows.foldl (fun b p => if p.1 = "income" then b + p.2 else b - p.2) b
        = b + ((rows.filter fun row => decide (row.1 = "income")).map (·.2)).sum
            - ((rows.filter fun row => !decide (row.1 = "income")).map (·.2)).sum := by
  intro rows
  induction rows with
  | nil => intro b; simp
  | cons p rows ih =>
    intro b
    by_cases hp : p.1 = "income"
    · rw [List.foldl_cons, if_pos hp, ih]
      have e1 : List.filter (fun row => decide (row.1 = "income")) (p :: rows)
          = p :: List.filter (fun row => decide (row.1 = "income")) rows := by
        simp [List.filter_cons, hp]
      have e2 : List.filter (fun row => !decide (row.1 = "income")) (p :: rows)
          = List.filter (fun row => !decide (row.1 = "income")) rows := by
        simp [List.filter_cons, hp]
      rw [e1, e2, List.map_cons, List.sum_cons]
      ring
    · rw [List.foldl_cons, if_neg hp, ih]
      have e1 : List.filter (fun row => decide (row.1 = "income")) (p :: rows)
          = List.filter (fun row => decide (row.1 = "income")) rows := by
        simp [List.filter_cons, hp]
      have e2 : List.filter (fun row => !decide (row.1 = "income")) (p :: rows)
          = p :: List.filter (fun row => !decide (row.1 = "income")) rows := by
        simp [List.filter_cons, hp]
      rw [e1, e2, List.map_cons, List.sum_cons]
      ring

theorem balance_spec (M : Ledger) (u : Int) (hM : validLedger M) :
    get_user_balance M u = incomeTotal M u - expenseTotal M u := by
  unfold get_user_balance
  rw [balance_foldl]
  have hinc := groupSums_filter_sum (fun r => r.kind)
    (M.filter fun r => r.userId == u) (fun t => decide (t = "income"))
  have hexp := groupSums_filter_sum (fun r => r.kind)
    (M.filter fun r => r.userId == u) (fun t => !decide (t = "income"))
  rw [hinc, hexp]
  have hcongr : (M.filter fun r => r.userId == u).filter
        (fun x => !decide (x.kind = "income"))
      = (M.filter fun r => r.userId == u).filter
        (fun x => decide (x.kind = "expense")) := by
    apply List.filter_congr
    intro x hx
    have hxM : x ∈ M := List.mem_of_mem_filter hx
    rcases (hM x hxM).2.2 with h | h <;> simp [h]
  rw [hcongr]
  unfold incomeTotal expenseTotal
  ring

/-- C1: after any sequence of successful inserts, in any order, the
user's balance is the sum of the user's Income amounts minus the sum of
the user's Expense amounts over all time. -/
theorem c1_balance_signed_sum :
    ∀ (L L' : Ledger) (u : Int), validLedger L → L.Perm L' →
      get_user_balance L' u = incomeTotal L u - expenseTotal L u := by
  intro L L' u hL hperm
  have hL' : validLedger L' := by
    intro r hr
    exact hL r (hperm.mem_iff.mpr hr)
  rw [balance_spec L' u hL']
  have hfi : ((L'.filter fun r => r.userId == u).filter
        fun r => decide (r.kind = "income")).Perm
      ((L.filter fun r => r.userId == u).filter fun r => decide (r.kind = "income")) :=
    (hperm.symm.filter _).filter _
  have hfe : ((L'.filter fun r => r.userId == u).filter
        fun r => decide (r.kind = "expense")).Perm
      ((L.filter fun r => r.userId == u).filter fun r => decide (r.kind = "expense")) :=
    (hperm.symm.filter _).filter _
  unfold incomeTotal expenseTotal
  rw [(hfi.map (·.amount)).sum_eq, (hfe.map (·.amount)).sum_eq]

/-- C1 witness: two records inserted in either order give balance
5 − 3 = income − expense. -/
theorem c1_balance_signed_sum_witness :
    get_user_balance [rExp, r0] 1 = incomeTotal [r0, rExp] 1 - expenseTotal [r0, rExp] 1 :=
  c1_balance_signed_sum [r0, rExp] [rExp, r0] 1 (by decide) (List.Perm.swap rExp r0 [])

/-! ### Window statistics invariants (C4) -/

theorem buildStats_totals :
    ∀ (rows : List ((String × String) × ℚ)) (s : Stats),
      (rows.foldl statsStep s).total_income
          = s.total_income
            + ((rows.filter fun row => decide (row.1.1 = "income")).map (·.2)).sum
      ∧ (rows.foldl statsStep s).total_expense
          = s.total_expense
            + ((rows.filter fun row => !decide (row.1.1 = "income")).map (·.2)).sum := by
  intro rows
  induction rows with
  | nil => intro s; simp
  | cons p rows ih =>
    intro s
    by_cases hp : p.1.1 = "income"
    · have e1 : List.filter (fun row => decide (row.1.1 = "income")) (p :: rows)
          = p :: List.filter (fun row => decide (row.1.1 = "income")) rows := by
        simp [List.filter_cons, hp]
      have e2 : List.filter (fun row => !decide (row.1.1 = "income")) (p :: rows)
          = List.filter (fun row => !decide (row.1.1 = "income")) rows := by
        simp [List.filter_cons, hp]
      have hsi : (statsStep s p).total_income = s.total_income + p.2 := by
        simp [statsStep, hp]
      have hse : (statsStep s p).total_expense = s.total_expense := by
        simp [statsStep, hp]
      constructor
      · rw [List.foldl_cons, (ih (statsStep s p)).1, hsi, e1, List.map_cons,
          List.sum_cons]
        ring
      · rw [List.foldl_cons, (ih (statsStep s p)).2, hse, e2]
    · have e1 : List.filter (fun row => decide (row.1.1 = "income")) (p :: rows)
          = List.filter (fun row => decide (row.1.1 = "income")) rows := by
        simp [List.filter_cons, hp]
      have e2 : List.filter (fun row => !decide (row.1.1 = "income")) (p :: rows)
          = p :: List.filter (fun row => !decide (row.1.1 = "income")) rows := by
        simp [List.filter_cons, hp]
      have hsi : (statsStep s p).total_income = s.total_income := by
        simp [statsStep, hp]
      have hse : (statsStep s p).total_expense = s.total_expense + p.2 := by
        simp [statsStep, hp]
      constructor
      · rw [List.foldl_cons, (ih (statsStep s p)).1, hsi, e1]
      · rw [List.foldl_cons, (ih (statsStep s p)).2, hse, e2, List.map_cons,
          List.sum_cons]
        ring

theorem dictSet_fresh {m : List (String × ℚ)} {k : String} (v : ℚ)
    (h : k ∉ m.map (·.1)) : dictSet m k v = m ++ [(k, v)] := by
  unfold dictSet
  rw [if_neg]
  intro hany
  obtain ⟨q, hq, hqk⟩ := List.any_eq_true.mp hany
  exact h (List.mem_map.mpr ⟨q, hq, beq_iff_eq.mp hqk⟩)

theorem buildStats_maps :
    ∀ (rows : List ((String × String) × ℚ)) (s : Stats),
      (∀ row ∈ rows, row.1.1 = "income" ∨ row.1.1 = "expense") →
      (rows.map (·.1)).Nodup →
      (∀ row ∈ rows, row.1.1 = "income" → row.1.2 ∉ s.income.map (·.1)) →
      (∀ row ∈ rows, row.1.1 ≠ "income" → row.1.2 ∉ s.expense.map (·.1)) →
      (rows.foldl statsStep s).income
          = s.income ++ (rows.filter fun row => decide (row.1.1 = "income")).map
              (fun row => (row.1.2, row.2))
      ∧ (rows.foldl statsStep s).expense
          = s.expense ++ (rows.filter fun row => !decide (row.1.1 = "income")).map
              (fun row => (row.1.2, row.2)) := by
  intro rows
  induction rows with
  | nil => intro s _ _ _ _; simp
  | cons p rows ih =>
    intro s hkinds hnd hfin hfex
    rw [List.map_cons] at hnd
    have hp1 : p.1 ∉ rows.map (·.1) := (List.nodup_cons.mp hnd).1
    have hnd' : (rows.map (·.1)).Nodup := (List.nodup_cons.mp hnd).2
    have hsame : ∀ row ∈ rows, row.1.2 = p.1.2 →
        (row.1.1 = "income" ↔ p.1.1 = "income") → False := by
      intro row hr h2 h1
      apply hp1
      have hkr := hkinds row (List.mem_cons_of_mem p hr)
      have hkp := hkinds p (List.mem_cons_self p rows)
      have hfst : row.1.1 = p.1.1 := by
        rcases hkr with h | h <;> rcases hkp with h' | h'
        · rw [h, h']
        · exact absurd (h1.mp h) (by rw [h']; decide)
        · exact absurd (h1.mpr h') (by rw [h]; decide)
        · rw [h, h']
      have heq : row.1 = p.1 := Prod.ext hfst h2
      rw [← heq]
      exact List.mem_map_of_mem (·.1) hr
    by_cases hp : p.1.1 = "income"
    · have hstep_inc : (statsStep s p).income = s.income ++ [(p.1.2, p.2)] := by
        have h1 : (statsStep s p).income = dictSet s.income p.1.2 p.2 := by
          simp [statsStep, hp]
        rw [h1]
        exact dictSet_fresh p.2 (hfin p (List.mem_cons_self p rows) hp)
      have hstep_exp : (statsStep s p).expense = s.expense := by
        simp [statsStep, hp]
      have hih := ih (statsStep s p)
        (fun row hr => hkinds row (List.mem_cons_of_mem p hr)) hnd'
        (by
          intro row hr hrow
          rw [hstep_inc, List.map_append]
          intro hmem
          rcases List.mem_append.mp hmem with h | h
          · exact hfin row (List.mem_cons_of_mem p hr) hrow h
          · have h2 : row.1.2 = p.1.2 := by simpa using h
            exact hsame row hr h2 (by rw [hrow, hp]))
        (by
          intro row hr hrow
          rw [hstep_exp]
          exact hfex row (List.mem_cons_of_mem p hr) hrow)
      have e1 : List.filter (fun row => decide (row.1.1 = "income")) (p :: rows)
          = p :: List.filter (fun row => decide (row.1.1 = "income")) rows := by
        simp [List.filter_cons, hp]
      have e2 : List.filter (fun row => !decide (row.1.1 = "income")) (p :: rows)
          = List.filter (fun row => !decide (row.1.1 = "income")) rows := by
        simp [List.filter_cons, hp]
      constructor
      · rw [List.foldl_cons, hih.1, hstep_inc, e1, List.map_cons, List.append_assoc]
        rfl
      · rw [List.foldl_cons, hih.2, hstep_exp, e2]
    · have hstep_exp : (statsStep s p).expense = s.expense ++ [(p.1.2, p.2)] := by
        have h1 : (statsStep s p).expense = dictSet s.expense p.1.2 p.2 := by
          simp [statsStep, hp]
        rw [h1]
        exact dictSet_fresh p.2 (hfex p (List.mem_cons_self p rows) hp)
      have hstep_inc : (statsStep s p).income = s.income := by
        simp [statsStep, hp]
      have hih := ih (statsStep s p)
        (fun row hr => hkinds row (List.mem_cons_of_mem p hr)) hnd'
        (by
          intro row hr hrow
          rw [hstep_inc]
          exact hfin row (List.mem_cons_of_mem p hr) hrow)
        (by
          intro row hr hrow
          rw [hstep_exp, List.map_append]
          intro hmem
          rcases List.mem_append.mp hmem with h | h
          · exact hfex row (List.mem_cons_of_mem p hr) hrow h
          · have h2 : row.1.2 = p.1.2 := by simpa using h
            exact hsame row hr h2 (by
              constructor
              · intro h'; exact absurd h' hrow
              · intro h'; exact absurd h' hp))
      have e1 : List.filter (fun row => decide (row.1.1 = "income")) (p :: rows)
          = List.filter (fun row => decide (row.1.1 = "income")) rows := by
        simp [List.filter_cons, hp]
      have e2 : List.filter (fun row => !decide (row.1.1 = "income")) (p :: rows)
          = p :: List.filter (fun row => !decide (row.1.1 = "income")) rows := by
        simp [List.filter_cons, hp]
      constructor
      · rw [List.foldl_cons, hih.1, hstep_inc, e1]
      · rw [List.foldl_cons, hih.2, hstep_exp, e2, List.map_cons, List.append_assoc]
        rfl

theorem windowStats_spec (L : Ledger) (u : Int) (keep : Txn → Bool)
    (hL : validLedger L) :
    (buildStats (queryAgg L u keep)).total_income = wIncomeSum L u keep
    ∧ (buildStats (queryAgg L u keep)).total_expense = wExpenseSum L u keep
    ∧ ((buildStats (queryAgg L u keep)).expense.map (·.2)).sum
        = (buildStats (queryAgg L u keep)).total_expense
    ∧ (∀ q ∈ (buildStats (queryAgg L u keep)).expense, 0 < q.2)
    ∧ (∀ q ∈ (buildStats (queryAgg L u keep)).income, 0 < q.2) := by
  have hrecsL : ∀ x ∈ L.filter fun r => r.userId == u && keep r, x ∈ L :=
    fun x hx => List.mem_of_mem_filter hx
  have hkinds : ∀ row ∈ queryAgg L u keep,
      row.1.1 = "income" ∨ row.1.1 = "expense" := by
    intro row hr
    obtain ⟨⟨x, hx, hkx⟩, _⟩ := groupSums_mem hr
    rw [← hkx]
    exact (hL x (hrecsL x hx)).2.2
  have hnd : ((queryAgg L u keep).map (·.1)).Nodup := by
    unfold queryAgg
    rw [groupSums_fst]
    exact List.nodup_dedup _
  have hmaps := buildStats_maps (queryAgg L u keep) ⟨[], [], 0, 0⟩ hkinds hnd
    (by intro row _ _; simp) (by intro row _ _; simp)
  have htots := buildStats_totals (queryAgg L u keep) ⟨[], [], 0, 0⟩
  have hIncEq : (buildStats (queryAgg L u keep)).income
      = ((queryAgg L u keep).filter fun row => decide (row.1.1 = "income")).map
          (fun row => (row.1.2, row.2)) := by
    simpa using hmaps.1
  have hExpEq : (buildStats (queryAgg L u keep)).expense
      = ((queryAgg L u keep).filter fun row => !decide (row.1.1 = "income")).map
          (fun row => (row.1.2, row.2)) := by
    simpa using hmaps.2
  have hti : (buildStats (queryAgg L u keep)).total_income
      = (((queryAgg L u keep).filter fun row => decide (row.1.1 = "income")).map
          (·.2)).sum := by
    simpa using htots.1
  have hte : (buildStats (queryAgg L u keep)).total_expense
      = (((queryAgg L u keep).filter fun row => !decide (row.1.1 = "income")).map
          (·.2)).sum := by
    simpa using htots.2
  have hcongr : (L.filter fun r => r.userId == u && keep r).filter
        (fun x => !decide (x.kind = "income"))
      = (L.filter fun r => r.userId == u && keep r).filter
        (fun x => decide (x.kind = "expense")) := by
    apply List.filter_congr
    intro x hx
    rcases (hL x (List.mem_of_mem_filter hx)).2.2 with h | h <;> simp [h]
  refine ⟨?_, ?_, ?_, ?_, ?_⟩
  · exact hti.trans (groupSums_filter_sum (fun r => (r.kind, r.category))
      (L.filter fun r => r.userId == u && keep r) (fun q => decide (q.1 = "income")))
  · exact hte.trans ((groupSums_filter_sum (fun r => (r.kind, r.category))
      (L.filter fun r => r.userId == u && keep r)
      (fun q => !decide (q.1 = "income"))).trans
        (congrArg (fun l => (l.map (fun x => x.amount)).sum) hcongr))
  · rw [hExpEq, List.map_map, hte]
    rfl
  · intro q hq
    rw [hExpEq] at hq
    obtain ⟨row, hrowf, rfl⟩ := List.mem_map.mp hq
    have hrow : row ∈ queryAgg L u keep := List.mem_of_mem_filter hrowf
    obtain ⟨⟨x, hx, hkx⟩, hsum⟩ := groupSums_mem hrow
    show 0 < row.2
    rw [hsum]
    apply List.sum_pos
    · intro a ha
      obtain ⟨y, hy, rfl⟩ := List.mem_map.mp ha
      exact (hL y (hrecsL y (List.mem_of_mem_filter hy))).1
    · have hxg : x ∈ (L.filter fun r => r.userId == u && keep r).filter
          (fun y => decide ((fun r => (r.kind, r.category)) y = row.1)) :=
        List.mem_filter.mpr ⟨hx, by simp [hkx]⟩
      intro hnil
      rw [List.map_eq_nil_iff] at hnil
      rw [hnil] at hxg
      exact List.not_mem_nil x hxg
  · intro q hq
    rw [hIncEq] at hq
    obtain ⟨row, hrowf, rfl⟩ := List.mem_map.mp hq
    have hrow : row ∈ queryAgg L u keep := List.mem_of_mem_filter hrowf
    obtain ⟨⟨x, hx, hkx⟩, hsum⟩ := groupSums_mem hrow
    show 0 < row.2
    rw [hsum]
    apply List.sum_pos
    · intro a ha
      obtain ⟨y, hy, rfl⟩ := List.mem_map.mp ha
      exact (hL y (hrecsL y (List.mem_of_mem_filter hy))).1
    · have hxg : x ∈ (L.filter fun r => r.userId == u && keep r).filter
          (fun y => decide ((fun r => (r.kind, r.category)) y = row.1)) :=
        List.mem_filter.mpr ⟨hx, by simp [hkx]⟩
      intro hnil
      rw [List.map_eq_nil_iff] at hnil
      rw [hnil] at hxg
      exact List.not_mem_nil x hxg

/-- C4: for every user and every window (Day, Week, Month), totalIncome
is the sum of Income amounts in the window, totalExpense the sum of
Expense amounts, the expense-by-category values sum exactly to
totalExpense, and no category with a zero or absent total appears in the
per-category mappings (all stored entries are positive). -/
theorem c4_window_invariants :
    ∀ (L : Ledger) (u : Int) (now : DateTime), validLedger L →
      ((get_daily_stats L u now).total_income = wIncomeSum L u (dailyKeep now)
       ∧ (get_daily_stats L u now).total_expense = wExpenseSum L u (dailyKeep now)
       ∧ ((get_daily_stats L u now).expense.map (·.2)).sum
           = (get_daily_stats L u now).total_expense
       ∧ (∀ q ∈ (get_daily_stats L u now).expense, 0 < q.2)
       ∧ (∀ q ∈ (get_daily_stats L u now).income, 0 < q.2))
      ∧ ((get_weekly_stats L u now).total_income = wIncomeSum L u (weeklyKeep now)
       ∧ (get_weekly_stats L u now).total_expense = wExpenseSum L u (weeklyKeep now)
       ∧ ((get_weekly_stats L u now).expense.map (·.2)).sum
           = (get_weekly_stats L u now).total_expense
       ∧ (∀ q ∈ (get_weekly_stats L u now).expense, 0 < q.2)
       ∧ (∀ q ∈ (get_weekly_stats L u now).income, 0 < q.2))
      ∧ ((get_monthly_stats L u now).total_income = wIncomeSum L u (monthlyKeep now)
       ∧ (get_monthly_stats L u now).total_expense = wExpenseSum L u (monthlyKeep now)
       ∧ ((get_monthly_stats L u now).expense.map (·.2)).sum
           = (get_monthly_stats L u now).total_expense
       ∧ (∀ q ∈ (get_monthly_stats L u now).expense, 0 < q.2)
       ∧ (∀ q ∈ (get_monthly_stats L u now).income, 0 < q.2)) :=
  fun L u now hL =>
    ⟨windowStats_spec L u (dailyKeep now) hL,
     windowStats_spec L u (weeklyKeep now) hL,
     windowStats_spec L u (monthlyKeep now) hL⟩

/-- C4 witness at the two-record ledger and a concrete instant. -/
theorem c4_window_invariants_witness :
    (get_monthly_stats [r0, rExp] 1 ⟨2024, 1, 15, 9, 0, 0⟩).total_expense
      = wExpenseSum [r0, rExp] 1 (monthlyKeep ⟨2024, 1, 15, 9, 0, 0⟩) :=
  (c4_window_invariants [r0, rExp] 1 ⟨2024, 1, 15, 9, 0, 0⟩ (by decide)).2.2.2.1

/-! ### Calendar arithmetic (C5) -/

theorem daysInMonth_pos (y m : Nat) : 1 ≤ daysInMonth y m := by
  unfold daysInMonth
  split_ifs <;> norm_num

theorem dBM_succ (y m : Nat) (hm : 1 ≤ m) :
    daysBeforeMonth y (m + 1) = daysBeforeMonth y m + daysInMonth y m := by
  match m, hm with
  | m + 1, _ => rfl

theorem dBM_mono (y : Nat) : ∀ m m' : Nat, m ≤ m' →
    daysBeforeMonth y m ≤ daysBeforeMonth y m' := by
  intro m m' h
  induction m' with
  | zero =>
    have : m = 0 := by omega
    subst this
    exact le_rfl
  | succ n ih =>
    rcases Nat.lt_or_ge m (n + 1) with hlt | hge
    · have hmn : m ≤ n := by omega
      have h1 := ih hmn
      by_cases hn : 1 ≤ n
      · rw [dBM_succ y n hn]
        omega
      · have hn0 : n = 0 := by omega
        subst hn0
        have hm0 : m = 0 := by omega
        subst hm0
        exact le_of_eq rfl
    · have : m = n + 1 := by omega
      subst this
      exact le_rfl

theorem isLeap_mod (y : Nat) :
    isLeap y = true ↔ ((y % 4 = 0 ∧ y % 100 ≠ 0) ∨ y % 400 = 0) := by
  simp [isLeap]

set_option maxHeartbeats 1000000 in
theorem dBY_succ (y : Nat) (hy : 1 ≤ y) :
    daysBeforeYear (y + 1)
      = daysBeforeYear y + 365 + (if isLeap y then 1 else 0) := by
  obtain ⟨z, rfl⟩ : ∃ z, y = z + 1 := ⟨y - 1, by omega⟩
  have hl : (if isLeap (z + 1) then (1 : Nat) else 0)
      = if ((z + 1) % 4 = 0 ∧ (z + 1) % 100 ≠ 0) ∨ (z + 1) % 400 = 0 then 1 else 0 := by
    by_cases h : isLeap (z + 1) = true
    · rw [if_pos h, if_pos ((isLeap_mod (z + 1)).mp h)]
    · rw [if_neg h, if_neg (fun hc => h ((isLeap_mod (z + 1)).mpr hc))]
  unfold daysBeforeYear
  rw [hl]
  simp only [Nat.add_sub_cancel]
  split_ifs with hc
  · omega
  · omega

theorem dBY_mono : ∀ y y' : Nat, y ≤ y' → daysBeforeYear y ≤ daysBeforeYear y' := by
  intro y y' h
  induction y' with
  | zero =>
    have : y = 0 := by omega
    subst this
    exact le_rfl
  | succ n ih =>
    rcases Nat.lt_or_ge y (n + 1) with hlt | hge
    · have h2 := ih (by omega)
      by_cases hn : 1 ≤ n
      · rw [dBY_succ n hn]
        omega
      · have hn0 : n = 0 := by omega
        subst hn0
        have hy0 : y = 0 := by omega
        subst hy0
        exact le_of_eq rfl
    · have : y = n + 1 := by omega
      subst this
      exact le_rfl

theorem dBM13 (y : Nat) :
    daysBeforeMonth y 13 = 365 + (if isLeap y then 1 else 0) := by
  by_cases h : isLeap y = true <;>
    simp [daysBeforeMonth, daysInMonth, h]

theorem validYmd_mk {y m d : Nat} (h1 : 1 ≤ y) (h2 : 1 ≤ m) (h3 : m ≤ 12)
    (h4 : 1 ≤ d) (h5 : d ≤ daysInMonth y m) : validYmd (y, m, d) :=
  ⟨h1, h2, h3, h4, h5⟩

theorem toOrdinal_pos {d : Ymd} (hv : validYmd d) : 1 ≤ toOrdinal d := by
  obtain ⟨y, m, dd⟩ := d
  unfold validYmd at hv
  unfold toOrdinal
  omega

theorem prevDay_ordinal {d : Ymd} (hv : validYmd d) (hne : d ≠ ((1, 1, 1) : Ymd)) :
    validYmd (prevDay d) ∧ toOrdinal (prevDay d) + 1 = toOrdinal d := by
  obtain ⟨y, m, dd⟩ := d
  unfold validYmd at hv
  simp only at hv
  obtain ⟨hy, hm1, hm2, hd1, hd2⟩ := hv
  have hpd : prevDay (y, m, dd)
      = if 2 ≤ dd then (y, m, dd - 1)
        else if 2 ≤ m then (y, m - 1, daysInMonth y (m - 1))
        else (y - 1, 12, 31) := rfl
  rw [hpd]
  by_cases hdd : 2 ≤ dd
  · rw [if_pos hdd]
    refine ⟨validYmd_mk hy hm1 hm2 (by omega) (by omega), ?_⟩
    show daysBeforeYear y + daysBeforeMonth y m + (dd - 1) + 1
        = daysBeforeYear y + daysBeforeMonth y m + dd
    omega
  · rw [if_neg hdd]
    have hdd1 : dd = 1 := by omega
    subst hdd1
    by_cases hm : 2 ≤ m
    · rw [if_pos hm]
      have hb : daysBeforeMonth y m
          = daysBeforeMonth y (m - 1) + daysInMonth y (m - 1) := by
        conv_lhs => rw [show m = (m - 1) + 1 by omega]
        exact dBM_succ y (m - 1) (by omega)
      refine ⟨validYmd_mk hy (by omega) (by omega)
        (daysInMonth_pos y (m - 1)) le_rfl, ?_⟩
      show daysBeforeYear y + daysBeforeMonth y (m - 1) + daysInMonth y (m - 1) + 1
          = daysBeforeYear y + daysBeforeMonth y m + 1
      omega
    · rw [if_neg hm]
      have hmm : m = 1 := by omega
      subst hmm
      have hy2 : 2 ≤ y := by
        rcases Nat.lt_or_ge y 2 with h | h
        · have : y = 1 := by omega
          subst this
          exact absurd rfl hne
        · exact h
      have h12 : daysInMonth (y - 1) 12 = 31 := by
        unfold daysInMonth
        norm_num
      refine ⟨validYmd_mk (by omega) (by norm_num) (by norm_num) (by norm_num)
        (by rw [h12]), ?_⟩
      have hb : daysBeforeMonth (y - 1) 13
          = daysBeforeMonth (y - 1) 12 + daysInMonth (y - 1) 12 :=
        dBM_succ (y - 1) 12 (by norm_num)
      have hg := dBM13 (y - 1)
      have he := dBY_succ (y - 1) (by omega)
      rw [show (y - 1) + 1 = y by omega] at he
      have hm0 : daysBeforeMonth y 1 = 0 := rfl
      show daysBeforeYear (y - 1) + daysBeforeMonth (y - 1) 12 + 31 + 1
          = daysBeforeYear y + daysBeforeMonth y 1 + 1
      omega

theorem subDays_spec : ∀ (k : Nat) (d : Ymd), validYmd d → k ≤ toOrdinal d - 1 →
    validYmd (subDays d k) ∧ toOrdinal (subDays d k) = toOrdinal d - k := by
  intro k
  induction k with
  | zero =>
    intro d hv _
    exact ⟨hv, by simp [subDays]⟩
  | succ n ih =>
    intro d hv hk
    have hord1 : 1 ≤ toOrdinal d := toOrdinal_pos hv
    obtain ⟨hv', hord⟩ := ih d hv (by omega)
    have h2 : 2 ≤ toOrdinal (subDays d n) := by
      rw [hord]
      omega
    have hne : subDays d n ≠ ((1, 1, 1) : Ymd) := by
      intro h
      rw [h] at h2
      have : toOrdinal ((1, 1, 1) : Ymd) = 1 := rfl
      omega
    obtain ⟨hv2, hord2⟩ := prevDay_ordinal hv' hne
    refine ⟨hv2, ?_⟩
    show toOrdinal (prevDay (subDays d n)) = toOrdinal d - (n + 1)
    omega

theorem toOrdinal_lt {a b : Ymd} (ha : validYmd a) (hb : validYmd b)
    (hlt : a.1 < b.1 ∨ (a.1 = b.1 ∧ (a.2.1 < b.2.1
      ∨ (a.2.1 = b.2.1 ∧ a.2.2 < b.2.2)))) :
    toOrdinal a < toOrdinal b := by
  obtain ⟨ya, ma, da⟩ := a
  obtain ⟨yb, mb, db⟩ := b
  unfold validYmd at ha hb
  simp only at ha hb hlt
  obtain ⟨hya, hma1, hma2, hda1, hda2⟩ := ha
  obtain ⟨hyb, hmb1, hmb2, hdb1, hdb2⟩ := hb
  show daysBeforeYear ya + daysBeforeMonth ya ma + da
      < daysBeforeYear yb + daysBeforeMonth yb mb + db
  rcases hlt with hy | ⟨hyeq, hrest⟩
  · have h1 : daysBeforeMonth ya (ma + 1)
        = daysBeforeMonth ya ma + daysInMonth ya ma := dBM_succ ya ma hma1
    have h2 : daysBeforeMonth ya (ma + 1) ≤ daysBeforeMonth ya 13 :=
      dBM_mono ya (ma + 1) 13 (by omega)
    have h3 := dBM13 ya
    have h5 := dBY_succ ya hya
    have h6 : daysBeforeYear (ya + 1) ≤ daysBeforeYear yb :=
      dBY_mono (ya + 1) yb (by omega)
    omega
  · subst hyeq
    rcases hrest with hm | ⟨hmeq, hd⟩
    · have h1 : daysBeforeMonth ya (ma + 1)
          = daysBeforeMonth ya ma + daysInMonth ya ma := dBM_succ ya ma hma1
      have h2 : daysBeforeMonth ya (ma + 1) ≤ daysBeforeMonth ya mb :=
        dBM_mono ya (ma + 1) mb (by omega)
      omega
    · subst hmeq
      omega

theorem ymdLe_iff_ord {a b : Ymd} (ha : validYmd a) (hb : validYmd b) :
    ymdLe a b = true ↔ toOrdinal a ≤ toOrdinal b := by
  constructor
  · intro h
    unfold ymdLe at h
    rw [decide_eq_true_eq] at h
    by_cases heq : a = b
    · rw [heq]
    · apply le_of_lt
      apply toOrdinal_lt ha hb
      obtain ⟨ya, ma, da⟩ := a
      obtain ⟨yb, mb, db⟩ := b
      simp only [Prod.mk.injEq, not_and] at heq
      simp only at h ⊢
      omega
  · intro h
    by_contra hc
    unfold ymdLe at hc
    rw [decide_eq_true_eq] at hc
    have hstrict : b.1 < a.1 ∨ (b.1 = a.1 ∧ (b.2.1 < a.2.1
        ∨ (b.2.1 = a.2.1 ∧ b.2.2 < a.2.2))) := by
      obtain ⟨ya, ma, da⟩ := a
      obtain ⟨yb, mb, db⟩ := b
      simp only at hc ⊢
      omega
    have := toOrdinal_lt hb ha hstrict
    omega

/-- C5: the Day window of `get_daily_stats` keeps exactly the records of
the current calendar day; the Week window of `get_weekly_stats` keeps
exactly the records dated at or after `weekStart`, which is a Monday at
or before now and the most recent such Monday; the Month window of
`get_monthly_stats` keeps exactly the records dated at or after the 1st
of the current month. -/
theorem c5_window_starts :
    ∀ (now : DateTime), validYmd (ymdOf now) →
      (∀ (L : Ledger) (u : Int),
        get_daily_stats L u now
          = buildStats (queryAgg L u (fun r => decide (ymdOf r.date = ymdOf now)))
        ∧ get_weekly_stats L u now
          = buildStats (queryAgg L u
              (fun r => ymdLe (weekStart (ymdOf now)) (ymdOf r.date)))
        ∧ get_monthly_stats L u now
          = buildStats (queryAgg L u
              (fun r => ymdLe ((ymdOf now).1, (ymdOf now).2.1, 1) (ymdOf r.date))))
      ∧ validYmd (weekStart (ymdOf now))
      ∧ pyWeekday (weekStart (ymdOf now)) = 0
      ∧ ymdLe (weekStart (ymdOf now)) (ymdOf now) = true
      ∧ (∀ da : Ymd, validYmd da → pyWeekday da = 0 →
          ymdLe da (ymdOf now) = true → ymdLe da (weekStart (ymdOf now)) = true) := by
  intro now hv
  have hw : pyWeekday (ymdOf now) ≤ toOrdinal (ymdOf now) - 1 := Nat.mod_le _ _
  obtain ⟨hvws, hordws⟩ := subDays_spec (pyWeekday (ymdOf now)) (ymdOf now) hv hw
  have hord1 : 1 ≤ toOrdinal (ymdOf now) := toOrdinal_pos hv
  refine ⟨fun L u => ⟨rfl, rfl, rfl⟩, hvws, ?_, ?_, ?_⟩
  · show (toOrdinal (subDays (ymdOf now) (pyWeekday (ymdOf now))) - 1) % 7 = 0
    rw [hordws]
    unfold pyWeekday
    omega
  · rw [show weekStart (ymdOf now) = subDays (ymdOf now) (pyWeekday (ymdOf now))
        from rfl]
    rw [ymdLe_iff_ord hvws hv]
    rw [hordws]
    omega
  · intro da hvd hmon hle
    rw [ymdLe_iff_ord hvd hv] at hle
    rw [show weekStart (ymdOf now) = subDays (ymdOf now) (pyWeekday (ymdOf now))
        from rfl]
    rw [ymdLe_iff_ord hvd hvws]
    rw [hordws]
    unfold pyWeekday at hmon ⊢
    have h1 := toOrdinal_pos hvd
    omega

/-- C5 witness at the concrete instant 2024-10-09 (a Wednesday): the week
start is a Monday at or before it. -/
theorem c5_window_starts_witness :
    pyWeekday (weekStart (ymdOf now0)) = 0
    ∧ ymdLe (weekStart (ymdOf now0)) (ymdOf now0) = true :=
  ⟨(c5_window_starts now0 (by decide)).2.2.1,
   (c5_window_starts now0 (by decide)).2.2.2.1⟩

end FinBot
